import Mathlib

/-!
Shallow embedding of the Mini Blog service (`first-steps/main.py`): the
in-memory record store `BLOG_POST`, the pagination/filter/sort pipeline of
`GET /posts`, and the create/delete handlers, together with theorems about
them.  Python dictionaries become structures, Python `int` becomes `Int`,
page arithmetic uses `Nat` (the binding layer enforces `per_page ≥ 1`,
`page ≥ 1` before the handler runs), and fallible handlers return an
explicit response variant.
-/

namespace MiniBlog

/-- Tag model (source `class Tag`): a tag name; length 2..30 is enforced by
the validation layer, see `validTag`. -/
structure Tag where
  name : String
deriving DecidableEq

/-- Author model (source `class Author`). -/
structure Author where
  name : String
  email : Option String
deriving DecidableEq

/-- A stored blog-post record: the dictionaries held in `BLOG_POST`, in the
shape `PostPublic` serializes them to (`id`, `title`, optional `content`,
`tags` defaulting to `[]`, `author` defaulting to `None`). -/
structure Post where
  id : Int
  title : String
  content : Option String
  tags : List Tag
  author : Option Author
deriving DecidableEq

/-- The seeded module-level store `BLOG_POST` (lines 8-36 of the source). -/
def BLOG_POST : List Post := [
  ⟨1, "Primero Post", some "Este es mi primer post en FastAPI.", [], none⟩,
  ⟨2, "Segundo Post", some "Aprendiendo FastAPI es divertido!", [], none⟩,
  ⟨3, "Tercer Post", some "¡Estoy emocionado por construir más con FastAPI!", [], none⟩,
  ⟨4, "Cuarto Post", some "Explorando las rutas de FastAPI.", [], none⟩,
  ⟨5, "Quinto Post", some "Manejo de datos con Pydantic.", [], none⟩,
  ⟨6, "Sexto Post", some "Validación de modelos en FastAPI.", [], none⟩,
  ⟨7, "Séptimo Post", some "Parámetros de consulta y ruta.", [], none⟩,
  ⟨8, "Octavo Post", some "Manejo de errores HTTP.", [], none⟩,
  ⟨9, "Noveno Post", some "Seguridad y autenticación.", [], none⟩,
  ⟨10, "Décimo Post", some "Despliegue de aplicaciones FastAPI.", [], none⟩,
  ⟨11, "Onceavo Post", some "Integración con bases de datos.", [], none⟩,
  ⟨12, "Doceavo Post", some "Pruebas unitarias en FastAPI.", [], none⟩,
  ⟨13, "Treceavo Post", some "Documentación automática con OpenAPI.", [], none⟩,
  ⟨14, "Catorceavo Post", some "Middleware en FastAPI.", [], none⟩,
  ⟨15, "Quinceavo Post", some "Dependencias e inyección.", [], none⟩,
  ⟨16, "Dieciseisavo Post", some "WebSockets con FastAPI.", [], none⟩,
  ⟨17, "Diecisieteavo Post", some "Tareas en segundo plano.", [], none⟩,
  ⟨18, "Dieciochoavo Post", some "Generación de clientes.", [], none⟩,
  ⟨19, "Diecinueveavo Post", some "Optimización de rendimiento.", [], none⟩,
  ⟨20, "Veinteavo Post", some "Comunidad y recursos de FastAPI.", [], none⟩]

/-- The fixed prohibited-word list (lines 38-41 of the source); every entry
is already lower-case. -/
def PROHIBITED_WORDS : List String := [
  "spam", "tonto", "idiota", "basura", "malo",
  "estúpido", "inútil", "feo", "horrible"]

/-- Models Python `str.lower` on one character, for the character ranges the
repository's data uses: ASCII `A`..`Z` (65..90) and the Latin-1 uppercase
letters `À`..`Þ` (192..222 except the multiplication sign 215) map 32 code
points up; every other character is left unchanged. -/
def toLowerPy (c : Char) : Char :=
  let n := c.toNat
  if 65 ≤ n ∧ n ≤ 90 then Char.ofNat (n + 32)
  else if 192 ≤ n ∧ n ≤ 222 ∧ n ≠ 215 then Char.ofNat (n + 32)
  else c

/-- Models Python `s.lower()`: lower-case every character. -/
def pyLower (s : String) : String := String.mk (s.data.map toLowerPy)

/-- Auxiliary for substring search: does `needle` occur at the head of `hay`? -/
def leadsWith : List Char → List Char → Bool
  | [], _ => true
  | _ :: _, [] => false
  | a :: as, b :: bs => a = b && leadsWith as bs

/-- Models Python `needle in hay` for strings (as character lists): `needle`
occurs contiguously somewhere in `hay`.  The empty needle always occurs. -/
def containsSub : List Char → List Char → Bool
  | hay, needle =>
    match hay with
    | [] => needle.isEmpty
    | _ :: t => leadsWith needle hay || containsSub t needle

/-- Models Python `needle in hay` on strings. -/
def pyContains (hay needle : String) : Bool := containsSub hay.data needle.data

/-- The `order_by` query parameter: `Literal["id", "title"]`. -/
inductive OrderBy where
  | id
  | title
deriving DecidableEq

/-- The `direction` query parameter: `Literal["asc", "desc"]`. -/
inductive Direction where
  | asc
  | desc
deriving DecidableEq

/-- Response model `PaginatedPost` (lines 106-116 of the source). -/
structure PaginatedPost where
  page : Nat
  per_page : Nat
  total : Nat
  total_pages : Nat
  has_prev : Bool
  has_next : Bool
  order_by : OrderBy
  direction : Direction
  search : Option String
  items : List Post
deriving DecidableEq

/-- Step 1 of `get_posts` (lines 162-170): if a search query is given (and,
as with Python truthiness, non-empty), keep the posts whose lower-cased
title contains the lower-cased query; otherwise keep every post. -/
def filterStep (store : List Post) (query : Option String) : List Post :=
  match query with
  | none => store
  | some q => if q = "" then store
      else store.filter (fun post => pyContains (pyLower post.title) (pyLower q))

/-- Models `ceil(total / per_page)` (line 181) with exact rational division,
as a natural-number ceiling division.  Requires `0 < b` to be meaningful. -/
def pyCeilDiv (a b : Nat) : Nat := (a + b - 1) / b

/-- Step 2 of `get_posts` (line 181): `ceil(total / per_page) if total > 0
else 0`. -/
def totalPagesCalc (total per_page : Nat) : Nat :=
  if 0 < total then pyCeilDiv total per_page else 0

/-- Step 3 of `get_posts` (lines 185-191): clamp the requested page. -/
def currentPageCalc (page total_pages : Nat) : Nat :=
  if total_pages = 0 then 1 else min page total_pages

section StableSort

variable {α : Type} {κ : Type} [LinearOrder κ]

/-- Insert into an ascending run, passing over strictly smaller keys, so
that the inserted element lands before every element of equal key. -/
def insertAsc (k : α → κ) (a : α) : List α → List α
  | [] => [a]
  | b :: bs => if k b < k a then b :: insertAsc k a bs else a :: b :: bs

/-- Stable ascending sort by a key, modelling Python `sorted(l, key=k)`:
CPython's sort is stable, and any stable sort by the same key computes the
same list. -/
def sortAsc (k : α → κ) : List α → List α
  | [] => []
  | x :: xs => insertAsc k x (sortAsc k xs)

/-- Insert into a descending run, passing over strictly larger keys, so
that the inserted element lands before every element of equal key. -/
def insertDesc (k : α → κ) (a : α) : List α → List α
  | [] => [a]
  | b :: bs => if k a < k b then b :: insertDesc k a bs else a :: b :: bs

/-- Stable descending sort by a key, modelling Python
`sorted(l, key=k, reverse=True)`: CPython documents that `reverse=True`
still keeps elements with equal keys in their original order. -/
def sortDesc (k : α → κ) : List α → List α
  | [] => []
  | x :: xs => insertDesc k x (sortDesc k xs)

end StableSort

/-- Step 4 of `get_posts` (lines 198-199): sort the filtered set by the
chosen field, descending when `direction == "desc"`.  The sort keys are the
Python values `post[order_by]`: the integer `id` or the string `title`
(compared lexicographically by code point, as Python compares `str`). -/
def sortStep (results : List Post) (order_by : OrderBy) (direction : Direction) : List Post :=
  match order_by, direction with
  | .id, .asc => sortAsc (fun p => p.id) results
  | .id, .desc => sortDesc (fun p => p.id) results
  | .title, .asc => sortAsc (fun p => p.title.data) results
  | .title, .desc => sortDesc (fun p => p.title.data) results

/-- Step 5 of `get_posts` (lines 203-217): the page window
`results[start : start + per_page]` with `start = (current_page - 1) * per_page`,
or the empty list when there are no pages. -/
def itemsCalc (sortedResults : List Post) (total_pages current_page per_page : Nat) : List Post :=
  if total_pages = 0 then []
  else ((sortedResults.drop ((current_page - 1) * per_page)).take per_page)

/-- The `GET /posts` handler `get_posts` (lines 161-243), with the global
store passed explicitly.  `per_page` and `page` are the binding-layer
validated query parameters (`1 ≤ per_page ≤ 50`, `1 ≤ page`). -/
def get_posts (store : List Post) (query : Option String) (per_page page : Nat)
    (order_by : OrderBy) (direction : Direction) : PaginatedPost :=
  let results := filterStep store query
  let total := results.length
  let total_pages := totalPagesCalc total per_page
  let current_page := currentPageCalc page total_pages
  let sortedResults := sortStep results order_by direction
  ⟨current_page, per_page, total, total_pages,
    decide (1 < current_page), decide (current_page < total_pages),
    order_by, direction, query,
    itemsCalc sortedResults total_pages current_page per_page⟩

/-- The `GET /posts` handler seen as a state transformer on the module-level
store: the handler only rebinds its local `results` (the list comprehension
and `sorted` both allocate fresh lists) and never assigns or mutates
`BLOG_POST`, so the store it leaves behind is the one it was given. -/
def get_posts_st (store : List Post) (query : Option String) (per_page page : Nat)
    (order_by : OrderBy) (direction : Direction) : List Post × PaginatedPost :=
  (store, get_posts store query per_page page order_by direction)

/-- Request body for `POST /posts` (source `class PostCreate`, lines 63-81):
`title`, optional `content`, `tags`.  The class declares no `author` field. -/
structure PostCreateInput where
  title : String
  content : Option String
  tags : List Tag
deriving DecidableEq

/-- Does the lower-cased title contain some prohibited word (validator
`not_allowed_title`, lines 83-89)?  The words are already lower-case. -/
def titleHasProhibited (title : String) : Bool :=
  PROHIBITED_WORDS.any (fun w => pyContains (pyLower title) w)

/-- Tag field constraints: `name` length 2..30. -/
def validTag (t : Tag) : Bool := 2 ≤ t.name.length && t.name.length ≤ 30

/-- The validation layer for `POST /posts` bodies: title length 3..100 and
free of prohibited words, content length 10..1000 when present, and valid
tags.  Pydantic rejects the request with HTTP 422 before the handler runs
when this is false. -/
def validPostCreate (i : PostCreateInput) : Bool :=
  (3 ≤ i.title.length && i.title.length ≤ 100)
    && !(titleHasProhibited i.title)
    && (match i.content with
        | none => true
        | some c => 10 ≤ c.length && c.length ≤ 1000)
    && i.tags.all validTag

/-- The id chosen for a newly created post (line 278):
`(BLOG_POST[-1]["id"] + 1) if BLOG_POST else 1`, i.e. one more than the id
of the LAST stored post, or 1 for an empty store. -/
def new_id_of : List Post → Int
  | [] => 1
  | [p] => p.id + 1
  | _ :: p :: ps => new_id_of (p :: ps)

/-- The largest id held in the store (0 for an empty store); the
specification's notion of "the current maximum id". -/
def maxIdOf (store : List Post) : Int := store.foldr (fun p m => max p.id m) 0

/-- Outcome of a `POST /posts` request. -/
inductive CreateResp where
  | created (code : Nat) (p : Post)
  | validationError
  | attributeError
deriving DecidableEq

/-- The `POST /posts` handler `create_post` (lines 277-288).  It computes
`new_id = new_id_of store` and then builds the `new_post` dictionary; that
dictionary literal evaluates `post.author`, but `PostCreate` declares no
`author` field, so the access raises `AttributeError` (HTTP 500) before
`BLOG_POST.append` is ever reached: the handler can never return 201 and
never changes the store. -/
def create_post (store : List Post) (_input : PostCreateInput) : List Post × CreateResp :=
  (store, .attributeError)

/-- The full `POST /posts` request path: pydantic validates the body against
`PostCreate` first (422 on failure, handler not run), then the handler runs. -/
def post_posts (store : List Post) (input : PostCreateInput) : List Post × CreateResp :=
  if validPostCreate input then create_post store input
  else (store, .validationError)

/-- Outcome of a `DELETE /posts/{post_id}` request. -/
inductive DeleteResp where
  | noContent
  | notFound
deriving DecidableEq

/-- The `DELETE /posts/{post_id}` handler `delete_post` (lines 310-315):
scan the store in order, remove the first post whose id matches and return
204; return 404 with the store unchanged when none matches. -/
def delete_post : List Post → Int → List Post × DeleteResp
  | [], _ => ([], .notFound)
  | p :: ps, i =>
    if p.id = i then (ps, .noContent)
    else
      let r := delete_post ps i
      (p :: r.1, r.2)

/-- A store of 29 posts with ids 1..29, used to run the documented
`total=29, per_page=10` pagination scenario through the engine. -/
def posts29 : List Post :=
  (List.range 29).map (fun k => ⟨(k : Int) + 1, "Post", none, [], none⟩)

/-- Two posts sharing one title, exhibiting a tie for the `title` sort key. -/
def postDupA : Post := ⟨1, "Mismo Titulo", none, [], none⟩

/-- Second post with the same title as `postDupA`. -/
def postDupB : Post := ⟨2, "Mismo Titulo", none, [], none⟩

/-- A post with id 2, for a store whose last element is not its maximum. -/
def postTwo : Post := ⟨2, "Dos titulos", none, [], none⟩

/-- A post with id 1. -/
def postOne : Post := ⟨1, "Un titulo", none, [], none⟩

/-- The order relation on posts induced by the chosen `order_by` sort key. -/
def sortKeyLe : OrderBy → Post → Post → Prop
  | .id => fun p q => p.id ≤ q.id
  | .title => fun p q => p.title.data ≤ q.title.data

/-- Stability of a reordering with respect to a sort key: for every key
value, the records carrying that value appear in the output in the same
order as in the input. -/
def stableOn {κ : Type} [LinearOrder κ] (k : Post → κ) (input output : List Post) : Prop :=
  ∀ v : κ, output.filter (fun p => decide (k p = v)) = input.filter (fun p => decide (k p = v))

/-- Stability of the sorting step with respect to the chosen sort key. -/
def stableStep : OrderBy → List Post → List Post → Prop
  | .id => stableOn (fun p => p.id)
  | .title => stableOn (fun p => p.title.data)

/-- All sort keys of the list are pairwise distinct. -/
def distinctKeys : OrderBy → List Post → Prop
  | .id => fun l => l.Pairwise (fun p q => p.id ≠ q.id)
  | .title => fun l => l.Pairwise (fun p q => p.title.data ≠ q.title.data)

section StableSortLemmas

variable {α : Type} {κ : Type} [LinearOrder κ]

theorem insertAsc_perm (k : α → κ) (a : α) (l : List α) :
    (insertAsc k a l).Perm (a :: l) := by
  induction l with
  | nil => exact List.Perm.refl _
  | cons b bs ih =>
    simp only [insertAsc]
    by_cases h : k b < k a
    · simp only [if_pos h]
      exact (ih.cons b).trans (List.Perm.swap a b bs)
    · rw [if_neg h]

theorem sortAsc_perm (k : α → κ) (l : List α) : (sortAsc k l).Perm l := by
  induction l with
  | nil => exact List.Perm.refl _
  | cons x xs ih =>
    simp only [sortAsc]
    exact (insertAsc_perm k x (sortAsc k xs)).trans (ih.cons x)

theorem insertDesc_perm (k : α → κ) (a : α) (l : List α) :
    (insertDesc k a l).Perm (a :: l) := by
  induction l with
  | nil => exact List.Perm.refl _
  | cons b bs ih =>
    simp only [insertDesc]
    by_cases h : k a < k b
    · simp only [if_pos h]
      exact (ih.cons b).trans (List.Perm.swap a b bs)
    · rw [if_neg h]

theorem sortDesc_perm (k : α → κ) (l : List α) : (sortDesc k l).Perm l := by
  induction l with
  | nil => exact List.Perm.refl _
  | cons x xs ih =>
    simp only [sortDesc]
    exact (insertDesc_perm k x (sortDesc k xs)).trans (ih.cons x)

theorem insertAsc_pairwise (k : α → κ) (a : α) (l : List α)
    (h : l.Pairwise (fun x y => k x ≤ k y)) :
    (insertAsc k a l).Pairwise (fun x y => k x ≤ k y) := by
  induction l with
  | nil => simp [insertAsc]
  | cons b bs ih =>
    rcases List.pairwise_cons.1 h with ⟨hb, hbs⟩
    simp only [insertAsc]
    by_cases hlt : k b < k a
    · simp only [if_pos hlt]
      refine List.pairwise_cons.2 ⟨?_, ih hbs⟩
      intro c hc
      rcases List.mem_cons.1 ((insertAsc_perm k a bs).mem_iff.1 hc) with rfl | hc3
      · exact le_of_lt hlt
      · exact hb c hc3
    · simp only [if_neg hlt]
      refine List.pairwise_cons.2 ⟨?_, h⟩
      intro c hc
      rcases List.mem_cons.1 hc with rfl | hc3
      · exact not_lt.1 hlt
      · exact le_trans (not_lt.1 hlt) (hb c hc3)

theorem sortAsc_pairwise (k : α → κ) (l : List α) :
    (sortAsc k l).Pairwise (fun x y => k x ≤ k y) := by
  induction l with
  | nil => simp [sortAsc]
  | cons x xs ih =>
    simp only [sortAsc]
    exact insertAsc_pairwise k x _ ih

theorem insertDesc_pairwise (k : α → κ) (a : α) (l : List α)
    (h : l.Pairwise (fun x y => k y ≤ k x)) :
    (insertDesc k a l).Pairwise (fun x y => k y ≤ k x) := by
  induction l with
  | nil => simp [insertDesc]
  | cons b bs ih =>
    rcases List.pairwise_cons.1 h with ⟨hb, hbs⟩
    simp only [insertDesc]
    by_cases hlt : k a < k b
    · simp only [if_pos hlt]
      refine List.pairwise_cons.2 ⟨?_, ih hbs⟩
      intro c hc
      rcases List.mem_cons.1 ((insertDesc_perm k a bs).mem_iff.1 hc) with rfl | hc3
      · exact le_of_lt hlt
      · exact hb c hc3
    · simp only [if_neg hlt]
      refine List.pairwise_cons.2 ⟨?_, h⟩
      intro c hc
      rcases List.mem_cons.1 hc with rfl | hc3
      · exact not_lt.1 hlt
      · exact le_trans (hb c hc3) (not_lt.1 hlt)

theorem sortDesc_pairwise (k : α → κ) (l : List α) :
    (sortDesc k l).Pairwise (fun x y => k y ≤ k x) := by
  induction l with
  | nil => simp [sortDesc]
  | cons x xs ih =>
    simp only [sortDesc]
    exact insertDesc_pairwise k x _ ih

theorem insertAsc_filter_of_eq (k : α → κ) (a : α) (l : List α) (v : κ) (hv : k a = v) :
    (insertAsc k a l).filter (fun x => decide (k x = v))
      = a :: l.filter (fun x => decide (k x = v)) := by
  subst hv
  induction l with
  | nil => simp [insertAsc]
  | cons b bs ih =>
    simp only [insertAsc]
    by_cases hlt : k b < k a
    · have hbne : ¬ (k b = k a) := ne_of_lt hlt
      rw [if_pos hlt, List.filter_cons, List.filter_cons, if_neg (by simp [hbne]),
        if_neg (by simp [hbne]), ih]
    · rw [if_neg hlt, List.filter_cons, if_pos (by simp)]

theorem insertAsc_filter_of_ne (k : α → κ) (a : α) (l : List α) (v : κ) (hv : ¬ (k a = v)) :
    (insertAsc k a l).filter (fun x => decide (k x = v))
      = l.filter (fun x => decide (k x = v)) := by
  induction l with
  | nil => simp [insertAsc, hv]
  | cons b bs ih =>
    simp only [insertAsc]
    by_cases hlt : k b < k a
    · rw [if_pos hlt, List.filter_cons, List.filter_cons, ih]
    · rw [if_neg hlt, List.filter_cons, if_neg (by simp [hv])]

theorem sortAsc_stable (k : α → κ) (l : List α) (v : κ) :
    (sortAsc k l).filter (fun x => decide (k x = v))
      = l.filter (fun x => decide (k x = v)) := by
  induction l with
  | nil => rfl
  | cons x xs ih =>
    simp only [sortAsc]
    by_cases hx : k x = v
    · rw [insertAsc_filter_of_eq k x _ v hx, ih]
      simp [List.filter_cons, hx]
    · rw [insertAsc_filter_of_ne k x _ v hx, ih]
      simp [List.filter_cons, hx]

theorem insertDesc_filter_of_eq (k : α → κ) (a : α) (l : List α) (v : κ) (hv : k a = v) :
    (insertDesc k a l).filter (fun x => decide (k x = v))
      = a :: l.filter (fun x => decide (k x = v)) := by
  subst hv
  induction l with
  | nil => simp [insertDesc]
  | cons b bs ih =>
    simp only [insertDesc]
    by_cases hlt : k a < k b
    · have hbne : ¬ (k b = k a) := (ne_of_lt hlt).symm
      rw [if_pos hlt, List.filter_cons, List.filter_cons, if_neg (by simp [hbne]),
        if_neg (by simp [hbne]), ih]
    · rw [if_neg hlt, List.filter_cons, if_pos (by simp)]

theorem insertDesc_filter_of_ne (k : α → κ) (a : α) (l : List α) (v : κ) (hv : ¬ (k a = v)) :
    (insertDesc k a l).filter (fun x => decide (k x = v))
      = l.filter (fun x => decide (k x = v)) := by
  induction l with
  | nil => simp [insertDesc, hv]
  | cons b bs ih =>
    simp only [insertDesc]
    by_cases hlt : k a < k b
    · rw [if_pos hlt, List.filter_cons, List.filter_cons, ih]
    · rw [if_neg hlt, List.filter_cons, if_neg (by simp [hv])]

theorem sortDesc_stable (k : α → κ) (l : List α) (v : κ) :
    (sortDesc k l).filter (fun x => decide (k x = v))
      = l.filter (fun x => decide (k x = v)) := by
  induction l with
  | nil => rfl
  | cons x xs ih =>
    simp only [sortDesc]
    by_cases hx : k x = v
    · rw [insertDesc_filter_of_eq k x _ v hx, ih]
      simp [List.filter_cons, hx]
    · rw [insertDesc_filter_of_ne k x _ v hx, ih]
      simp [List.filter_cons, hx]

theorem pairwise_strict_unique (k : α → κ) :
    ∀ (l₁ l₂ : List α), l₁.Perm l₂ →
      l₁.Pairwise (fun x y => k y < k x) → l₂.Pairwise (fun x y => k y < k x) → l₁ = l₂ := by
  intro l₁
  induction l₁ with
  | nil =>
    intro l₂ hp _ _
    exact (List.Perm.eq_nil hp.symm).symm
  | cons a t ih =>
    intro l₂ hp h1 h2
    cases l₂ with
    | nil => exact absurd (List.Perm.eq_nil hp) (by simp)
    | cons b u =>
      rcases List.pairwise_cons.1 h1 with ⟨h1a, h1t⟩
      rcases List.pairwise_cons.1 h2 with ⟨h2b, h2u⟩
      have hab : a = b := by
        rcases List.mem_cons.1 (hp.mem_iff.1 (List.mem_cons_self a t)) with h | h
        · exact h
        · have hka : k a < k b := h2b a h
          rcases List.mem_cons.1 (hp.symm.mem_iff.1 (List.mem_cons_self b u)) with h3 | h3
          · exact h3.symm
          · exact absurd hka (not_lt.2 (h1a b h3).le)
      subst hab
      rw [ih u hp.cons_inv h1t h2u]

theorem sortDesc_eq_reverse_sortAsc (k : α → κ) (l : List α)
    (h : l.Pairwise (fun x y => k x ≠ k y)) :
    sortDesc k l = (sortAsc k l).reverse := by
  have hsymm : ∀ {x y : α}, k x ≠ k y → k y ≠ k x := fun hxy e => hxy e.symm
  have hA : (sortAsc k l).Pairwise (fun x y => k x ≠ k y) :=
    ((sortAsc_perm k l).pairwise_iff hsymm).2 h
  have hD : (sortDesc k l).Pairwise (fun x y => k x ≠ k y) :=
    ((sortDesc_perm k l).pairwise_iff hsymm).2 h
  have hAstrict : (sortAsc k l).Pairwise (fun x y => k x < k y) :=
    ((sortAsc_pairwise k l).and hA).imp (fun hxy => lt_of_le_of_ne hxy.1 hxy.2)
  have hDstrict : (sortDesc k l).Pairwise (fun x y => k y < k x) :=
    ((sortDesc_pairwise k l).and hD).imp
      (fun hxy => lt_of_le_of_ne hxy.1 (fun e => hxy.2 e.symm))
  have hRstrict : ((sortAsc k l).reverse).Pairwise (fun x y => k y < k x) :=
    List.pairwise_reverse.2 hAstrict
  have hperm : (sortDesc k l).Perm ((sortAsc k l).reverse) :=
    (sortDesc_perm k l).trans ((sortAsc_perm k l).symm.trans (List.reverse_perm _).symm)
  exact pairwise_strict_unique k _ _ hperm hDstrict hRstrict

end StableSortLemmas

theorem sortStep_length (l : List Post) (ob : OrderBy) (dir : Direction) :
    (sortStep l ob dir).length = l.length := by
  cases ob <;> cases dir <;> simp only [sortStep] <;>
    first
    | exact (sortAsc_perm _ _).length_eq
    | exact (sortDesc_perm _ _).length_eq

theorem pyCeilDiv_pos (a b : Nat) (ha : 0 < a) (hb : 0 < b) : 0 < pyCeilDiv a b := by
  unfold pyCeilDiv
  have h1 : 1 ≤ (a + b - 1) / b := by
    rw [Nat.le_div_iff_mul_le hb, one_mul]
    omega
  omega

theorem pyCeilDiv_mul_ge (a b : Nat) (hb : 0 < b) : a ≤ pyCeilDiv a b * b := by
  unfold pyCeilDiv
  obtain ⟨n, hn⟩ : ∃ n, (a + b - 1) / b = n := ⟨_, rfl⟩
  have hdm := Nat.div_add_mod (a + b - 1) b
  have hml := Nat.mod_lt (a + b - 1) hb
  rw [hn] at hdm ⊢
  rw [mul_comm]
  obtain ⟨m, hm⟩ : ∃ m, b * n = m := ⟨_, rfl⟩
  rw [hm] at hdm ⊢
  obtain ⟨r, hr⟩ : ∃ r, (a + b - 1) % b = r := ⟨_, rfl⟩
  rw [hr] at hdm hml
  omega

theorem pyCeilDiv_pred_mul_lt (a b : Nat) (ha : 0 < a) (hb : 0 < b) :
    (pyCeilDiv a b - 1) * b < a := by
  unfold pyCeilDiv
  rw [Nat.sub_mul, one_mul, mul_comm]
  obtain ⟨n, hn⟩ : ∃ n, (a + b - 1) / b = n := ⟨_, rfl⟩
  have hdm := Nat.div_add_mod (a + b - 1) b
  have hml := Nat.mod_lt (a + b - 1) hb
  rw [hn] at hdm ⊢
  obtain ⟨m, hm⟩ : ∃ m, b * n = m := ⟨_, rfl⟩
  rw [hm] at hdm ⊢
  obtain ⟨r, hr⟩ : ∃ r, (a + b - 1) % b = r := ⟨_, rfl⟩
  rw [hr] at hdm hml
  omega

theorem pyCeilDiv_eq_ceil (a b : Nat) (hb : 0 < b) :
    pyCeilDiv a b = Nat.ceil ((a : ℚ) / (b : ℚ)) := by
  rcases Nat.eq_zero_or_pos a with ha | ha
  · subst ha
    have hlt : b - 1 < b := by omega
    simp [pyCeilDiv, Nat.div_eq_of_lt hlt]
  · have hn1 : 0 < pyCeilDiv a b := pyCeilDiv_pos a b ha hb
    have hbq : (0 : ℚ) < (b : ℚ) := by exact_mod_cast hb
    symm
    rw [Nat.ceil_eq_iff (by omega : pyCeilDiv a b ≠ 0)]
    constructor
    · rw [lt_div_iff₀ hbq]
      exact_mod_cast pyCeilDiv_pred_mul_lt a b ha hb
    · rw [div_le_iff₀ hbq]
      exact_mod_cast pyCeilDiv_mul_ge a b hb

theorem containsSub_nil (hay : List Char) : containsSub hay [] = true := by
  cases hay <;> simp [containsSub, leadsWith, List.isEmpty]

theorem mem_le_maxIdOf (s : List Post) (p : Post) (hp : p ∈ s) : p.id ≤ maxIdOf s := by
  induction s with
  | nil => cases hp
  | cons q t ih =>
    have hfold : maxIdOf (q :: t) = max q.id (maxIdOf t) := rfl
    rcases List.mem_cons.1 hp with rfl | hp2
    · rw [hfold]
      exact le_max_left _ _
    · rw [hfold]
      exact le_trans (ih hp2) (le_max_right _ _)

theorem delete_post_not_found (s : List Post) (i : Int) (h : ∀ p ∈ s, p.id ≠ i) :
    delete_post s i = (s, DeleteResp.notFound) := by
  induction s with
  | nil => rfl
  | cons p ps ih =>
    have hp : ¬ (p.id = i) := h p (List.mem_cons_self p ps)
    have hps := ih (fun q hq => h q (List.mem_cons_of_mem p hq))
    simp [delete_post, hp, hps]

theorem delete_post_found (l₁ : List Post) (p : Post) (l₂ : List Post) (i : Int)
    (hp : p.id = i) (h : ∀ q ∈ l₁, q.id ≠ i) :
    delete_post (l₁ ++ p :: l₂) i = (l₁ ++ l₂, DeleteResp.noContent) := by
  induction l₁ with
  | nil => simp [delete_post, hp]
  | cons q t ih =>
    have hq : ¬ (q.id = i) := h q (List.mem_cons_self q t)
    have ht := ih (fun r hr => h r (List.mem_cons_of_mem q hr))
    simp [delete_post, hq, ht]

theorem delete_post_unique (s : List Post) (i : Int)
    (h : s.Pairwise (fun p q => p.id ≠ q.id)) :
    (delete_post s i).1 = s.filter (fun p => decide (p.id ≠ i)) := by
  induction s with
  | nil => rfl
  | cons p ps ih =>
    rcases List.pairwise_cons.1 h with ⟨hp, hps⟩
    by_cases hi : p.id = i
    · have hall : ∀ q ∈ ps, (fun r : Post => decide (r.id ≠ i)) q = true := by
        intro q hq
        simp only [decide_eq_true_eq]
        intro he
        exact hp q hq (hi.trans he.symm)
      have h1 : delete_post (p :: ps) i = (ps, DeleteResp.noContent) := by
        simp [delete_post, hi]
      rw [h1, List.filter_cons, if_neg (by simp [hi])]
      exact (List.filter_eq_self.2 hall).symm
    · have h1 : (delete_post (p :: ps) i).1 = p :: (delete_post ps i).1 := by
        simp [delete_post, hi]
      rw [h1, List.filter_cons, if_pos (by simp [hi]), ih hps]

theorem currentPageCalc_spec (page tp : Nat) (hpg : 1 ≤ page) :
    1 ≤ currentPageCalc page tp ∧ currentPageCalc page tp ≤ max 1 tp ∧
    (tp = 0 → currentPageCalc page tp = 1) ∧
    (tp ≠ 0 → currentPageCalc page tp = min page tp) := by
  unfold currentPageCalc
  by_cases h : tp = 0
  · simp [h]
  · simp [h]
    omega

/-- C1: for every call to the pagination engine with `per_page` in [1,50] and
`page ≥ 1`, the returned `current_page` lies in `[1, max 1 total_pages]`; it
is 1 when `total_pages = 0` and `min page total_pages` otherwise, and the
engine is a total function (no error is raised for out-of-range pages). -/
theorem c1_current_page_in_range (store : List Post) (query : Option String)
    (per_page page : Nat) (order_by : OrderBy) (direction : Direction)
    (hpp1 : 1 ≤ per_page) (hpp2 : per_page ≤ 50) (hpg : 1 ≤ page) :
    1 ≤ (get_posts store query per_page page order_by direction).page ∧
    (get_posts store query per_page page order_by direction).page
      ≤ max 1 (get_posts store query per_page page order_by direction).total_pages ∧
    ((get_posts store query per_page page order_by direction).total_pages = 0 →
      (get_posts store query per_page page order_by direction).page = 1) ∧
    ((get_posts store query per_page page order_by direction).total_pages ≠ 0 →
      (get_posts store query per_page page order_by direction).page
        = min page (get_posts store query per_page page order_by direction).total_pages) := by
  have epage : (get_posts store query per_page page order_by direction).page
      = currentPageCalc page (totalPagesCalc (filterStep store query).length per_page) := rfl
  have etp : (get_posts store query per_page page order_by direction).total_pages
      = totalPagesCalc (filterStep store query).length per_page := rfl
  rw [epage, etp]
  exact currentPageCalc_spec page _ hpg

/-- Witness for C1 at a concrete out-of-range request (`page = 200` against
the 20-post seed store). -/
theorem c1_witness :
    1 ≤ (get_posts BLOG_POST none 10 200 OrderBy.id Direction.asc).page ∧
    (get_posts BLOG_POST none 10 200 OrderBy.id Direction.asc).page
      ≤ max 1 (get_posts BLOG_POST none 10 200 OrderBy.id Direction.asc).total_pages ∧
    ((get_posts BLOG_POST none 10 200 OrderBy.id Direction.asc).total_pages = 0 →
      (get_posts BLOG_POST none 10 200 OrderBy.id Direction.asc).page = 1) ∧
    ((get_posts BLOG_POST none 10 200 OrderBy.id Direction.asc).total_pages ≠ 0 →
      (get_posts BLOG_POST none 10 200 OrderBy.id Direction.asc).page
        = min 200 (get_posts BLOG_POST none 10 200 OrderBy.id Direction.asc).total_pages) :=
  c1_current_page_in_range BLOG_POST none 10 200 OrderBy.id Direction.asc
    (by decide) (by decide) (by decide)

/-- C2: the engine computes `total_pages = ceil(total / per_page)` (exact
rational ceiling) when `total > 0` and `0` when `total = 0`; and in the
scenario `total = 29`, `per_page = 10`, `page = 10` it returns
`total_pages = 3`, `current_page = 3`, `has_next = false`, `has_prev = true`. -/
theorem c2_total_pages_ceil :
    (∀ (store : List Post) (query : Option String) (per_page page : Nat)
        (order_by : OrderBy) (direction : Direction),
      1 ≤ per_page → per_page ≤ 50 →
      (get_posts store query per_page page order_by direction).total_pages =
        if 0 < (get_posts store query per_page page order_by direction).total
        then Nat.ceil
          (((get_posts store query per_page page order_by direction).total : ℚ)
            / (per_page : ℚ))
        else 0) ∧
    ((get_posts posts29 none 10 10 OrderBy.id Direction.asc).total_pages = 3 ∧
      (get_posts posts29 none 10 10 OrderBy.id Direction.asc).page = 3 ∧
      (get_posts posts29 none 10 10 OrderBy.id Direction.asc).has_next = false ∧
      (get_posts posts29 none 10 10 OrderBy.id Direction.asc).has_prev = true) := by
  constructor
  · intro store query pp pg ob dir hpp _
    have e1 : (get_posts store query pp pg ob dir).total_pages
        = totalPagesCalc (filterStep store query).length pp := rfl
    have e2 : (get_posts store query pp pg ob dir).total
        = (filterStep store query).length := rfl
    rw [e1, e2]
    unfold totalPagesCalc
    by_cases h : 0 < (filterStep store query).length
    · rw [if_pos h, if_pos h, pyCeilDiv_eq_ceil _ _ hpp]
    · rw [if_neg h, if_neg h]
  · exact ⟨by decide, by decide, by decide, by decide⟩

/-- Witness for C2 at a concrete call on the seed store. -/
theorem c2_witness :
    (get_posts BLOG_POST none 10 1 OrderBy.id Direction.asc).total_pages =
      if 0 < (get_posts BLOG_POST none 10 1 OrderBy.id Direction.asc).total
      then Nat.ceil
        (((get_posts BLOG_POST none 10 1 OrderBy.id Direction.asc).total : ℚ)
          / ((10 : Nat) : ℚ))
      else 0 :=
  c2_total_pages_ceil.1 BLOG_POST none 10 1 OrderBy.id Direction.asc
    (by decide) (by decide)

/-- C3: with a search text the filter retains exactly the records whose
lower-cased title contains the lower-cased text as a substring, preserving
order; with no search text every record is kept; and filtering the seed
data with `search="segundo"` matches exactly the post with id 2. -/
theorem c3_filter_characterization :
    (∀ (store : List Post) (q : String) (p : Post),
      p ∈ filterStep store (some q) ↔
        p ∈ store ∧ pyContains (pyLower p.title) (pyLower q) = true) ∧
    (∀ store : List Post, filterStep store none = store) ∧
    ((get_posts BLOG_POST (some "segundo") 10 1 OrderBy.id Direction.asc).total = 1 ∧
      (get_posts BLOG_POST (some "segundo") 10 1 OrderBy.id Direction.asc).items.map
        (fun p => p.id) = [2]) := by
  refine ⟨?_, fun store => rfl, by decide, by decide⟩
  intro store q p
  by_cases hq : q = ""
  · subst hq
    have hc : pyContains (pyLower p.title) (pyLower "") = true := by
      unfold pyContains pyLower
      exact containsSub_nil _
    simp [filterStep, hc]
  · simp [filterStep, hq, List.mem_filter]

/-- C7: the `GET /posts` endpoint, as a state transformer, returns the store
it was given (contents and order untouched), and a second call with the same
arguments against the store left by the first yields the same result. -/
theorem c7_get_posts_pure (store : List Post) (query : Option String)
    (per_page page : Nat) (order_by : OrderBy) (direction : Direction) :
    (get_posts_st store query per_page page order_by direction).1 = store ∧
    (get_posts_st (get_posts_st store query per_page page order_by direction).1
        query per_page page order_by direction).2
      = (get_posts_st store query per_page page order_by direction).2 :=
  ⟨rfl, rfl⟩

/-- C4 counterexample: with two records sharing one title, sorting by
`title` descending does NOT yield the reverse of the ascending order — the
code's descending sort keeps tied records in their original order, while
the reversed ascending order swaps them. -/
theorem c4_counterexample :
    ¬ (sortStep [postDupA, postDupB] OrderBy.title Direction.desc
        = (sortStep [postDupA, postDupB] OrderBy.title Direction.asc).reverse) := by
  decide

/-- C4 (amended): the sorting step sorts by the chosen `order_by` key,
ascending for `asc` and descending for `desc`; both directions are stable
(records with equal sort keys keep their relative order from the filtered
sequence); and the descending order equals the reverse of the ascending
order whenever the sort keys are pairwise distinct. -/
theorem c4_sort_stable_amended (l : List Post) (ob : OrderBy) (dir : Direction) :
    (sortStep l ob Direction.asc).Pairwise (sortKeyLe ob) ∧
    (sortStep l ob Direction.desc).Pairwise (fun p q => sortKeyLe ob q p) ∧
    stableStep ob l (sortStep l ob dir) ∧
    (distinctKeys ob l →
      sortStep l ob Direction.desc = (sortStep l ob Direction.asc).reverse) := by
  cases ob with
  | id =>
    refine ⟨sortAsc_pairwise (fun p => p.id) l, sortDesc_pairwise (fun p => p.id) l,
      ?_, ?_⟩
    · cases dir
      · exact fun v => sortAsc_stable (fun p => p.id) l v
      · exact fun v => sortDesc_stable (fun p => p.id) l v
    · intro h
      have h2 : l.Pairwise (fun p q => p.id ≠ q.id) := h
      exact sortDesc_eq_reverse_sortAsc (fun p => p.id) l h2
  | title =>
    refine ⟨sortAsc_pairwise (fun p => p.title.data) l,
      sortDesc_pairwise (fun p => p.title.data) l,
      ?_, ?_⟩
    · cases dir
      · exact fun v => sortAsc_stable (fun p => p.title.data) l v
      · exact fun v => sortDesc_stable (fun p => p.title.data) l v
    · intro h
      have h2 : l.Pairwise (fun p q => p.title.data ≠ q.title.data) := h
      exact sortDesc_eq_reverse_sortAsc (fun p => p.title.data) l h2

/-- Witness for C4 (amended) at a concrete input with distinct `id` keys. -/
theorem c4_witness :
    sortStep [postDupA, postDupB] OrderBy.id Direction.desc
      = (sortStep [postDupA, postDupB] OrderBy.id Direction.asc).reverse :=
  (c4_sort_stable_amended [postDupA, postDupB] OrderBy.id Direction.asc).2.2.2
    (by decide : List.Pairwise (fun p q => p.id ≠ q.id) [postDupA, postDupB])

/-- C5 counterexample: on a store whose last element does not carry the
maximum id, the id the create handler computes (`BLOG_POST[-1]["id"] + 1`)
is not one more than the maximum id in the store. -/
theorem c5_counterexample :
    ¬ (new_id_of [postTwo, postOne] = maxIdOf [postTwo, postOne] + 1) := by
  decide

/-- C5 (amended): the create handler computes the new id as the LAST stored
post's id plus one (1 for an empty store); on stores that are sorted
ascending by id — as every store reachable from the seed is — this equals
the maximum id plus one; and ids CAN be recomputed after a deletion: after
deleting the highest post (id 20) from the seed store, the next id the
handler would choose is 20 again. -/
theorem c5_new_id_amended :
    (∀ s : List Post, (∀ p ∈ s, 0 < p.id) →
        s.Pairwise (fun p q => p.id ≤ q.id) →
        new_id_of s = maxIdOf s + 1) ∧
    new_id_of (delete_post BLOG_POST 20).1 = 20 := by
  constructor
  · intro s
    induction s with
    | nil =>
      intro _ _
      simp [new_id_of, maxIdOf]
    | cons p ps ih =>
      intro hpos hpair
      cases ps with
      | nil =>
        have hp : 0 < p.id := hpos p (List.mem_cons_self p [])
        have h1 : new_id_of [p] = p.id + 1 := rfl
        have h2 : maxIdOf [p] = max p.id 0 := rfl
        rw [h1, h2, max_eq_left hp.le]
      | cons q qs =>
        rcases List.pairwise_cons.1 hpair with ⟨hple, hqpair⟩
        have hrec : new_id_of (p :: q :: qs) = new_id_of (q :: qs) := rfl
        have ih2 := ih (fun r hr => hpos r (List.mem_cons_of_mem p hr)) hqpair
        have hle : p.id ≤ maxIdOf (q :: qs) :=
          le_trans (hple q (List.mem_cons_self q qs))
            (mem_le_maxIdOf _ q (List.mem_cons_self q qs))
        have hmax : maxIdOf (p :: q :: qs) = max p.id (maxIdOf (q :: qs)) := rfl
        rw [hrec, ih2, hmax, max_eq_right hle]
  · decide

/-- Witness for C5 (amended) on the seed store, which is sorted ascending. -/
theorem c5_witness : new_id_of BLOG_POST = maxIdOf BLOG_POST + 1 :=
  c5_new_id_amended.1 BLOG_POST (by decide) (by decide)

/-- C6 (code bug): on every input that passes validation, `POST /posts`
raises `AttributeError` — the handler reads `post.author` although the
`PostCreate` schema declares no `author` field — so no post is ever
appended and no 201 response is ever produced, contradicting the endpoint's
own declared `status_code=201` / `response_model=PostPublic`. -/
theorem c6_create_always_fails (store : List Post) (input : PostCreateInput)
    (hvalid : validPostCreate input = true) :
    post_posts store input = (store, CreateResp.attributeError) := by
  simp [post_posts, hvalid, create_post]

/-- Witness for C6 at a concrete valid request body. -/
theorem c6_witness :
    post_posts BLOG_POST
        ⟨"Hola Mundo FastAPI", some "Contenido de prueba suficientemente largo", []⟩
      = (BLOG_POST, CreateResp.attributeError) :=
  c6_create_always_fails BLOG_POST _ (by decide)

/-- C8: every create input whose title contains (case-insensitively) a
prohibited word is rejected by validation with a `ValidationError` before
the handler runs, and the store is returned unchanged. -/
theorem c8_prohibited_title_rejected (store : List Post) (input : PostCreateInput)
    (hbad : titleHasProhibited input.title = true) :
    post_posts store input = (store, CreateResp.validationError) := by
  have hv : validPostCreate input = false := by
    simp [validPostCreate, hbad]
  simp [post_posts, hv]

/-- Witness for C8: a title containing `SPAM` (upper-case, matched
case-insensitively) is rejected and the seed store is unchanged. -/
theorem c8_witness :
    post_posts BLOG_POST
        ⟨"Esto es SPAM puro", some "Contenido suficientemente largo.", []⟩
      = (BLOG_POST, CreateResp.validationError) :=
  c8_prohibited_title_rejected BLOG_POST _ (by decide)

/-- C9: `DELETE /posts/{post_id}` returns 404 and leaves the store exactly
unchanged when no post has the requested id; when a post has it, it returns
204 and removes exactly the first such post (the only one, under the store
invariant that ids are pairwise distinct: then the result is the store
filtered of that id). -/
theorem c9_delete_spec (s : List Post) (i : Int) :
    ((∀ p ∈ s, p.id ≠ i) → delete_post s i = (s, DeleteResp.notFound)) ∧
    (∀ (l₁ l₂ : List Post) (p : Post), s = l₁ ++ p :: l₂ → p.id = i →
        (∀ q ∈ l₁, q.id ≠ i) →
        delete_post s i = (l₁ ++ l₂, DeleteResp.noContent)) ∧
    (s.Pairwise (fun p q => p.id ≠ q.id) →
        (delete_post s i).1 = s.filter (fun p => decide (p.id ≠ i))) := by
  refine ⟨delete_post_not_found s i, ?_, delete_post_unique s i⟩
  intro l₁ l₂ p hs hp h
  rw [hs]
  exact delete_post_found l₁ p l₂ i hp h

/-- Witness for C9: deleting an absent id (999) returns 404 with the seed
store unchanged, and deleting id 1 returns 204 with exactly that post
removed. -/
theorem c9_witness :
    delete_post BLOG_POST 999 = (BLOG_POST, DeleteResp.notFound) ∧
    delete_post BLOG_POST 1 = ([] ++ BLOG_POST.drop 1, DeleteResp.noContent) :=
  ⟨(c9_delete_spec BLOG_POST 999).1 (by decide),
    (c9_delete_spec BLOG_POST 1).2.1 [] (BLOG_POST.drop 1)
      ⟨1, "Primero Post", some "Este es mi primer post en FastAPI.", [], none⟩
      (by decide) (by decide) (by decide)⟩

/-- C10: with `per_page` in [1,50] and `page ≥ 1`, the returned items list
is empty exactly when the filtered total is 0 — page clamping guarantees a
non-empty page whenever any record matches. -/
theorem c10_items_empty_iff (store : List Post) (query : Option String)
    (per_page page : Nat) (order_by : OrderBy) (direction : Direction)
    (hpp1 : 1 ≤ per_page) (hpp2 : per_page ≤ 50) (hpg : 1 ≤ page) :
    ((get_posts store query per_page page order_by direction).items = [] ↔
      (get_posts store query per_page page order_by direction).total = 0) := by
  have etotal : (get_posts store query per_page page order_by direction).total
      = (filterStep store query).length := rfl
  have eitems : (get_posts store query per_page page order_by direction).items
      = itemsCalc (sortStep (filterStep store query) order_by direction)
          (totalPagesCalc (filterStep store query).length per_page)
          (currentPageCalc page (totalPagesCalc (filterStep store query).length per_page))
          per_page := rfl
  rw [etotal, eitems]
  unfold itemsCalc
  by_cases htp : totalPagesCalc (filterStep store query).length per_page = 0
  · have hT : (filterStep store query).length = 0 := by
      by_contra hc
      unfold totalPagesCalc at htp
      rw [if_pos (Nat.pos_of_ne_zero hc)] at htp
      have := pyCeilDiv_pos (filterStep store query).length per_page
        (Nat.pos_of_ne_zero hc) hpp1
      omega
    rw [if_pos htp]
    simp [hT]
  · have hTpos : 0 < (filterStep store query).length := by
      by_contra hc
      have h0 : (filterStep store query).length = 0 := by omega
      unfold totalPagesCalc at htp
      rw [h0] at htp
      simp at htp
    rw [if_neg htp]
    constructor
    · intro hnil
      exfalso
      have hlen2 := congrArg List.length hnil
      rw [List.length_take, List.length_drop, sortStep_length] at hlen2
      have hcp_le : currentPageCalc page
          (totalPagesCalc (filterStep store query).length per_page)
          ≤ totalPagesCalc (filterStep store query).length per_page := by
        unfold currentPageCalc
        rw [if_neg htp]
        exact min_le_right _ _
      have htp_eq : totalPagesCalc (filterStep store query).length per_page
          = pyCeilDiv (filterStep store query).length per_page := by
        unfold totalPagesCalc
        rw [if_pos hTpos]
      have h1 : (totalPagesCalc (filterStep store query).length per_page - 1) * per_page
          < (filterStep store query).length := by
        rw [htp_eq]
        exact pyCeilDiv_pred_mul_lt _ _ hTpos hpp1
      have hstart : (currentPageCalc page
            (totalPagesCalc (filterStep store query).length per_page) - 1) * per_page
          < (filterStep store query).length :=
        lt_of_le_of_lt (Nat.mul_le_mul_right _ (by omega)) h1
      rcases Nat.min_eq_zero_iff.1 (by simpa using hlen2) with h | h
      · omega
      · omega
    · intro hT0
      exact absurd hT0 (by omega)

/-- Witness for C10 at a concrete call on the seed store. -/
theorem c10_witness :
    ((get_posts BLOG_POST none 10 1 OrderBy.id Direction.asc).items = [] ↔
      (get_posts BLOG_POST none 10 1 OrderBy.id Direction.asc).total = 0) :=
  c10_items_empty_iff BLOG_POST none 10 1 OrderBy.id Direction.asc
    (by decide) (by decide) (by decide)

end MiniBlog
